import Mathlib

/-
Verification of the ephemeral relay and presence subsystem of the
Secure-Messaging-App backend.

The development shallowly embeds the Python source:
  - app/models/relay_message.py    (RelayMessage)
  - app/services/relay_service.py  (RelayService)
  - app/websocket_manager.py       (ConnectionManager, embedded as ServerState)
  - app/api/relay.py               (send_relay_message REST handler)
  - app/routes/ws.py               (websocket endpoint cleanup path)

Modelling conventions:
  - Wall-clock time is an abstract Nat; every operation that reads the clock
    takes an explicit `now` argument.  `datetime.now() + timedelta(days=t)`
    becomes `now + t` (TTL in the same abstract unit).
  - `uuid.uuid4()` allocation of fresh message ids is modelled by a monotone
    `next_id` counter (collision-freedom of uuid4 is the intended semantics).
  - WebSocket handles are Nats.  A send that raises on a handle is modelled by
    passing the set of raising ("dead") handles to the operation.
  - Python dicts keyed by message id become a list of records with distinct
    ids; `defaultdict(set)` indexes and the online-user set become total
    functions (a missing key reads as the empty set).
  - The source deletes a user's `active_connections` entry as soon as its list
    becomes empty, so `user_id in self.active_connections` coincides with the
    entry being a nonempty list; the embedding uses a total function
    `String -> List Nat` and nonemptiness for dict membership.
  - Redis presence publishes and per-connection pushes are recorded as an
    explicit event trace.  Room bookkeeping (`user_rooms`/`room_members`) is
    omitted: no claim mentions rooms and it is disjoint state.
-/

namespace SecureMessaging

/-! ## RelayMessage (app/models/relay_message.py) -/

structure RelayMessage where
  id : Nat
  sender_id : String
  recipient_id : String
  encrypted_content : String
  encrypted_session_key : String
  crypto_version : String := "v1"
  encryption_algorithm : String := "ECDH-AES256-GCM"
  kdf_algorithm : String := "HKDF-SHA256"
  signatures : List String := []
  created_at : Nat
  expires_at : Nat
  delivery_attempts : Nat := 0
  last_attempt_at : Option Nat := none
  acknowledged : Bool := false
  has_media : Bool := false
  media_refs : List String := []
  deriving Repr, DecidableEq

/-- Source: `is_expired`, `datetime.now(timezone.utc) > self.expires_at`
(strict comparison). -/
def RelayMessage.is_expired (m : RelayMessage) (now : Nat) : Bool :=
  decide (now > m.expires_at)

/-- Source: `is_deliverable`, `not self.is_expired() and not self.acknowledged`. -/
def RelayMessage.is_deliverable (m : RelayMessage) (now : Nat) : Bool :=
  !m.is_expired now && !m.acknowledged

/-- Source: `record_delivery_attempt` increments the counter and stamps the
attempt time. -/
def RelayMessage.record_delivery_attempt (m : RelayMessage) (now : Nat) : RelayMessage :=
  { m with delivery_attempts := m.delivery_attempts + 1, last_attempt_at := some now }

/-! ## RelayService (app/services/relay_service.py) -/

structure RelayService where
  messages : List RelayMessage
  recipient_index : String → List Nat
  online_users : String → Bool
  default_ttl_days : Nat := 7
  next_id : Nat := 0

def RelayService.init : RelayService :=
  { messages := [], recipient_index := fun _ => [], online_users := fun _ => false }

/-- Source: `cleanup_expired_messages`.  Collects the expired ids, discards each
from its own recipient's index entry and deletes the record; returns the count. -/
def RelayService.cleanup_expired_messages (svc : RelayService) (now : Nat) :
    Nat × RelayService :=
  let expired := svc.messages.filter (fun m => m.is_expired now)
  (expired.length,
   { svc with
       messages := svc.messages.filter (fun m => !m.is_expired now),
       recipient_index := fun r =>
         (svc.recipient_index r).filter
           (fun mid => !(expired.any (fun m => m.id == mid && m.recipient_id == r))) })

/-- Source: `queue_message`.  Allocates a fresh id, computes
`expires_at = now + (ttl_days or default_ttl_days)` (Python `or`, so an
explicit TTL of 0 falls back to the default), stores the record and adds the
id to the recipient's index entry. -/
def RelayService.queue_message (svc : RelayService) (now : Nat)
    (sender_id recipient_id encrypted_content encrypted_session_key : String)
    (ttl_days : Option Nat) : RelayMessage × RelayService :=
  let msg_id := svc.next_id
  let ttl := match ttl_days with
    | some t => if t == 0 then svc.default_ttl_days else t
    | none => svc.default_ttl_days
  let relay_msg : RelayMessage :=
    { id := msg_id, sender_id := sender_id, recipient_id := recipient_id,
      encrypted_content := encrypted_content,
      encrypted_session_key := encrypted_session_key,
      created_at := now, expires_at := now + ttl }
  (relay_msg,
   { svc with
       messages := svc.messages ++ [relay_msg],
       recipient_index := fun r =>
         if r = recipient_id then svc.recipient_index r ++ [msg_id]
         else svc.recipient_index r,
       next_id := svc.next_id + 1 })

/-- The membership-and-deliverability test of the list comprehension in
`get_pending_messages`: `msg_id in self._messages and
self._messages[msg_id].is_deliverable()`, returning the record it selects. -/
def RelayService.lookup_deliverable (svc : RelayService) (now : Nat) (mid : Nat) :
    Option RelayMessage :=
  match svc.messages.find? (fun m => m.id == mid) with
  | some m => if m.is_deliverable now then some m else none
  | none => none

/-- Source: `get_pending_messages`.  Reads the recipient's index entry, keeps
the ids that resolve to a stored, currently deliverable record, then mutates
each returned record in place via `record_delivery_attempt`; the caller sees
the mutated records. -/
def RelayService.get_pending_messages (svc : RelayService) (now : Nat)
    (recipient_id : String) : List RelayMessage × RelayService :=
  let message_ids := svc.recipient_index recipient_id
  let pending := message_ids.filterMap (svc.lookup_deliverable now)
  (pending.map (fun m => m.record_delivery_attempt now),
   { svc with
       messages := svc.messages.map (fun m =>
         if pending.any (fun p => p.id == m.id) then m.record_delivery_attempt now
         else m) })

/-- Source: `acknowledge_message`.  Returns false when the id is not stored;
otherwise discards the id from the record's own recipient index entry, deletes
the record and returns true. -/
def RelayService.acknowledge_message (svc : RelayService) (message_id : Nat) :
    Bool × RelayService :=
  match svc.messages.find? (fun m => m.id == message_id) with
  | none => (false, svc)
  | some msg =>
    (true,
     { svc with
         messages := svc.messages.filter (fun m => m.id != message_id),
         recipient_index := fun r =>
           if r = msg.recipient_id then
             (svc.recipient_index r).filter (fun mid => mid != message_id)
           else svc.recipient_index r })

/-- Source: `mark_user_online`, `self._online_users.add(user_id)`. -/
def RelayService.mark_user_online (svc : RelayService) (user_id : String) : RelayService :=
  { svc with online_users := fun v => if v = user_id then true else svc.online_users v }

/-- Source: `mark_user_offline`, `self._online_users.discard(user_id)`. -/
def RelayService.mark_user_offline (svc : RelayService) (user_id : String) : RelayService :=
  { svc with online_users := fun v => if v = user_id then false else svc.online_users v }

/-- Source: `is_user_online`, membership in the stored `_online_users` set. -/
def RelayService.is_user_online (svc : RelayService) (user_id : String) : Bool :=
  svc.online_users user_id

/-! ## ConnectionManager (app/websocket_manager.py) -/

/-- Observable effects: the Redis `user_status` publishes made by
`connect`/`disconnect` and the per-connection `send_json` pushes. -/
inductive Event where
  | onlineNotif (user : String)
  | offlineNotif (user : String)
  | push (user : String) (conn : Nat) (msgId : Nat)
  deriving Repr, DecidableEq

structure ServerState where
  active_connections : String → List Nat
  relay : RelayService

def ServerState.init : ServerState :=
  { active_connections := fun _ => [], relay := RelayService.init }

/-- Source: `ConnectionManager.disconnect(user_id, websocket=None)`.
With a handle, removes only that handle (`list.remove` with ValueError
swallowed); with `None`, clears the whole list.  When no connection remains
the user is marked offline in the relay service and the offline status is
published. -/
def ServerState.disconnect (st : ServerState) (user_id : String)
    (websocket : Option Nat) : ServerState × List Event :=
  let conns :=
    match websocket with
    | some w => (st.active_connections user_id).erase w
    | none => []
  let st' : ServerState :=
    { st with active_connections := fun v =>
        if v = user_id then conns else st.active_connections v }
  if conns.isEmpty then
    ({ st' with relay := st'.relay.mark_user_offline user_id },
     [Event.offlineNotif user_id])
  else (st', [])

/-- Source: the prune loop at the end of `send_personal_message`:
`for ws in dead_connections: self.disconnect(user_id, ws)`. -/
def ServerState.prune_dead (user_id : String) :
    ServerState × List Event → List Nat → ServerState × List Event
  | acc, [] => acc
  | acc, w :: ws =>
    let (s, e) := acc.1.disconnect user_id (some w)
    ServerState.prune_dead user_id (s, acc.2 ++ e) ws

/-- Source: `send_personal_message`.  Returns false immediately when the user
owns no registered connection; otherwise pushes on every connection, treating
a raising send (membership in `dead`) as a dead connection to be pruned via
`disconnect`, and returns true iff at least one push succeeded. -/
def ServerState.send_personal_message (st : ServerState) (user_id : String)
    (msgId : Nat) (dead : List Nat) : Bool × ServerState × List Event :=
  if (st.active_connections user_id).isEmpty then (false, st, [])
  else
    let connections := st.active_connections user_id
    let pushes := (connections.filter (fun ws => !dead.contains ws)).map
      (fun ws => Event.push user_id ws msgId)
    let delivered := connections.any (fun ws => !dead.contains ws)
    let dead_connections := connections.filter (fun ws => dead.contains ws)
    let pruned := ServerState.prune_dead user_id (st, []) dead_connections
    (delivered, pruned.1, pushes ++ pruned.2)

/-- Source: `ConnectionManager.connect`.  Appends the handle to the user's
connection list, marks the user online in the relay service, publishes the
online status (unconditionally), and drains the pending relay messages over
the newly registered connection only
(`_deliver_pending_messages_to(user_id, websocket)`). -/
def ServerState.connect (st : ServerState) (now : Nat) (user_id : String)
    (websocket : Nat) : ServerState × List Event :=
  let conns := st.active_connections user_id ++ [websocket]
  let relay := st.relay.mark_user_online user_id
  let pending := (relay.get_pending_messages now user_id).1
  ({ active_connections := fun v =>
       if v = user_id then conns else st.active_connections v,
     relay := (relay.get_pending_messages now user_id).2 },
   Event.onlineNotif user_id :: pending.map (fun m => Event.push user_id websocket m.id))

/-- Source: the `finally:` block of the websocket endpoint in
app/routes/ws.py, which invokes exactly `manager.disconnect(user_id)`
(no websocket argument) on every exit path. -/
def ServerState.websocket_endpoint_cleanup (st : ServerState) (user_id : String) :
    ServerState × List Event :=
  st.disconnect user_id none

/-- External group-membership data consulted read-only by
`broadcast_to_group` (the `Group`/`GroupMember` database rows). -/
structure GroupInfo where
  member_ids : List String
  admin_id : String

/-- Source: the per-recipient loop of `broadcast_to_group`: an offline
recipient only bumps the offline counter; an online one gets one
`send_personal_message` call and bumps the sent counter. -/
def ServerState.group_fanout_loop (msgId : Nat) (dead : List Nat) :
    ServerState → List String → Nat × Nat × ServerState × List Event
  | st, [] => (0, 0, st, [])
  | st, recipient_id :: rest =>
    if (st.active_connections recipient_id).isEmpty then
      let res := ServerState.group_fanout_loop msgId dead st rest
      (res.1, res.2.1 + 1, res.2.2.1, res.2.2.2)
    else
      let attempt := st.send_personal_message recipient_id msgId dead
      let res := ServerState.group_fanout_loop msgId dead attempt.2.1 rest
      (res.1 + 1, res.2.1, res.2.2.1, attempt.2.2 ++ res.2.2.2)

/-- Source: `broadcast_to_group`.  Resolves the recipient set as the group's
members plus its admin (a Python set, modelled by `dedup`) and runs the
fan-out loop; the sender is never removed from the set.  Returns
`(sent_count, offline_count, state, events)`. -/
def ServerState.broadcast_to_group (st : ServerState) (group : GroupInfo)
    (msgId : Nat) (dead : List Nat) : Nat × Nat × ServerState × List Event :=
  let recipient_ids := (group.member_ids ++ [group.admin_id]).dedup
  ServerState.group_fanout_loop msgId dead st recipient_ids

/-- The synchronous JSON response of the `/relay/send` handler. -/
structure SendResponse where
  message_id : Nat
  status : String
  expires_at : Nat
  deriving Repr, DecidableEq

/-- Source: `send_relay_message` in app/api/relay.py.  Always queues the
message in the relay service first, then, when the relay service reports the
recipient online, attempts instant delivery; the response status re-reads the
online flag after the attempt. -/
def ServerState.send_relay_message (st : ServerState) (now : Nat)
    (sender_id recipient_id encrypted_content encrypted_session_key : String)
    (ttl_days : Option Nat) (dead : List Nat) :
    SendResponse × ServerState × List Event :=
  let relay_msg := (st.relay.queue_message now sender_id recipient_id
    encrypted_content encrypted_session_key ttl_days).1
  let relay1 := (st.relay.queue_message now sender_id recipient_id
    encrypted_content encrypted_session_key ttl_days).2
  let st1 : ServerState := { st with relay := relay1 }
  let attempt := st1.send_personal_message recipient_id relay_msg.id dead
  let st2 := if relay1.is_user_online recipient_id then attempt.2.1 else st1
  let evs := if relay1.is_user_online recipient_id then attempt.2.2 else []
  ({ message_id := relay_msg.id,
     status := if st2.relay.is_user_online recipient_id then "delivered" else "queued",
     expires_at := relay_msg.expires_at },
   st2, evs)

/-- Source: `ConnectionManager.is_user_online`: the user has an entry in
`active_connections` holding at least one handle. -/
def ServerState.is_user_online (st : ServerState) (user_id : String) : Bool :=
  !(st.active_connections user_id).isEmpty

/-! ## Operation alphabets and reachable states -/

/-- The RelayStore mutations named by the store-consistency claims. -/
inductive RelayOp where
  | queue (now : Nat) (sender recipient content key : String) (ttl : Option Nat)
  | getPending (now : Nat) (recipient : String)
  | ack (mid : Nat)
  | cleanup (now : Nat)

def RelayService.applyOp (svc : RelayService) : RelayOp → RelayService
  | .queue now s r c k ttl => (svc.queue_message now s r c k ttl).2
  | .getPending now r => (svc.get_pending_messages now r).2
  | .ack mid => (svc.acknowledge_message mid).2
  | .cleanup now => (svc.cleanup_expired_messages now).2

def runRelayOps (ops : List RelayOp) : RelayService :=
  ops.foldl RelayService.applyOp RelayService.init

/-- The public operations that touch connection or presence state. -/
inductive ServerOp where
  | connect (now : Nat) (user : String) (ws : Nat)
  | disconnect (user : String) (ws : Option Nat)
  | sendPersonal (user : String) (msgId : Nat) (dead : List Nat)
  | sendRelay (now : Nat) (sender recipient content key : String)
      (ttl : Option Nat) (dead : List Nat)
  | groupBroadcast (group : GroupInfo) (msgId : Nat) (dead : List Nat)
  | ackMessage (mid : Nat)
  | cleanup (now : Nat)
  | restPending (now : Nat) (user : String)

def ServerState.applyOp (st : ServerState) : ServerOp → ServerState
  | .connect now u ws => (st.connect now u ws).1
  | .disconnect u w => (st.disconnect u w).1
  | .sendPersonal u mid dead => (st.send_personal_message u mid dead).2.1
  | .sendRelay now s r c k ttl dead =>
      (st.send_relay_message now s r c k ttl dead).2.1
  | .groupBroadcast g mid dead => (st.broadcast_to_group g mid dead).2.2.1
  | .ackMessage mid => { st with relay := (st.relay.acknowledge_message mid).2 }
  | .cleanup now => { st with relay := (st.relay.cleanup_expired_messages now).2 }
  | .restPending now u => { st with relay := (st.relay.get_pending_messages now u).2 }

def runServerOps (ops : List ServerOp) : ServerState :=
  ops.foldl ServerState.applyOp ServerState.init

/-! ## Invariants -/

/-- Structural agreement of the message table with the recipient secondary
index: each recipient's index entry lists, in order, exactly the ids of the
stored records addressed to it; stored ids are distinct and bounded by the
allocation counter. -/
def RelayInv (svc : RelayService) : Prop :=
  (∀ r, svc.recipient_index r
      = (svc.messages.filter (fun m => m.recipient_id == r)).map (fun m => m.id))
  ∧ (svc.messages.map (fun m => m.id)).Nodup
  ∧ (∀ m ∈ svc.messages, m.id < svc.next_id)

/-- The relay service's stored online set agrees with the connection table:
a user is in the stored set iff it owns at least one registered connection. -/
def PresenceInv (st : ServerState) : Prop :=
  ∀ u, st.relay.online_users u = !(st.active_connections u).isEmpty

/-! ## Concrete states for the closed-form results -/

/-- A relay store holding one queued message (id 0) addressed to `bob`. -/
def wRelay : RelayService :=
  runRelayOps [RelayOp.queue 0 "alice" "bob" "ct" "sk" none]

/-- A server where `bob` is connected on handle 5 (registered via `connect`,
so both the connection table and the relay online set know about it). -/
def wServerBob : ServerState :=
  (ServerState.init.connect 0 "bob" 5).1

/-- A server with no connections but one relay message pending for `bob`. -/
def wServerDrain : ServerState :=
  { active_connections := fun _ => [], relay := wRelay }

/-- A server where `alice` (handle 1) and `bob` (handle 2) are connected and
`carol` is offline. -/
def wGroupState : ServerState :=
  { active_connections := fun u =>
      if u = "alice" then [1] else if u = "bob" then [2] else [],
    relay := RelayService.init }

/-- A group owned by `alice` with members `bob` and `carol`. -/
def wGroup : GroupInfo :=
  { member_ids := ["bob", "carol"], admin_id := "alice" }

/-- A server where `alice` is connected on handle 1. -/
def wServerAlice : ServerState :=
  (ServerState.init.connect 0 "alice" 1).1

/-- A message queued at time 0 with an explicit TTL of 5. -/
def wMsg5 : RelayMessage :=
  (RelayService.init.queue_message 0 "alice" "bob" "ct" "sk" (some 5)).1

/-! ## Basic lemmas about record bookkeeping -/

theorem record_attempt_id (m : RelayMessage) (now : Nat) :
    (m.record_delivery_attempt now).id = m.id := rfl

theorem record_attempt_recipient (m : RelayMessage) (now : Nat) :
    (m.record_delivery_attempt now).recipient_id = m.recipient_id := rfl

theorem record_attempt_deliverable (m : RelayMessage) (now now' : Nat) :
    (m.record_delivery_attempt now).is_deliverable now' = m.is_deliverable now' := rfl

/-- Distinct stored ids identify records: two members of a list with nodup ids
and equal ids are equal. -/
theorem mem_id_eq_of_nodup {l : List RelayMessage}
    (h : (l.map (fun m => m.id)).Nodup) {a b : RelayMessage}
    (ha : a ∈ l) (hb : b ∈ l) (hid : a.id = b.id) : a = b := by
  induction l with
  | nil => cases ha
  | cons x tl ih =>
    simp only [List.map_cons, List.nodup_cons] at h
    rcases List.mem_cons.mp ha with rfl | ha' <;>
      rcases List.mem_cons.mp hb with rfl | hb'
    · rfl
    · exact absurd (show a.id ∈ tl.map (fun m => m.id) from
        hid ▸ List.mem_map_of_mem (fun m => m.id) hb') h.1
    · exact absurd (show b.id ∈ tl.map (fun m => m.id) from
        hid ▸ List.mem_map_of_mem (fun m => m.id) ha') h.1
    · exact ih h.2 ha' hb'

/-- Under nodup ids, looking a member's id up in the table finds that member. -/
theorem find?_id_of_nodup {l : List RelayMessage}
    (h : (l.map (fun m => m.id)).Nodup) {a : RelayMessage} (ha : a ∈ l) :
    l.find? (fun m => m.id == a.id) = some a := by
  induction l with
  | nil => cases ha
  | cons x tl ih =>
    simp only [List.map_cons, List.nodup_cons] at h
    by_cases hx : x.id = a.id
    · have hxa : x = a := by
        rcases List.mem_cons.mp ha with rfl | ha'
        · rfl
        · exact absurd (show x.id ∈ tl.map (fun m => m.id) from
            hx ▸ List.mem_map_of_mem (fun m => m.id) ha') h.1
      subst hxa
      simp [List.find?_cons_of_pos]
    · have ha' : a ∈ tl := by
        rcases List.mem_cons.mp ha with rfl | ha'
        · exact absurd rfl hx
        · exact ha'
      rw [List.find?_cons_of_neg tl (by simpa using hx), ih h.2 ha']

/-- Filtering the projected id list agrees with projecting the filtered
record list, given the predicates agree pointwise on the list. -/
theorem filter_map_id_eq {l : List RelayMessage} {p : RelayMessage → Bool}
    {q : Nat → Bool} (h : ∀ m ∈ l, q m.id = p m) :
    (l.map (fun m => m.id)).filter q = (l.filter p).map (fun m => m.id) := by
  induction l with
  | nil => rfl
  | cons x tl ih =>
    have hx := h x (List.mem_cons_self x tl)
    have ih' := ih (fun m hm => h m (List.mem_cons_of_mem _ hm))
    by_cases hpx : p x
    · simp [List.filter_cons, hx, hpx, ih']
    · simp [List.filter_cons, hx, hpx, ih']

theorem filter_comm_bool {α : Type} (l : List α) (p q : α → Bool) :
    (l.filter p).filter q = (l.filter q).filter p := by
  rw [List.filter_filter, List.filter_filter]
  apply List.filter_congr
  intro m _
  rw [Bool.and_comm]

/-- Projecting ids through a record transformer that keeps ids fixed. -/
theorem map_id_of_id_fixed {l : List RelayMessage} {g : RelayMessage → RelayMessage}
    (hg : ∀ m, (g m).id = m.id) :
    (l.map g).map (fun m => m.id) = l.map (fun m => m.id) := by
  rw [List.map_map]
  exact List.map_congr_left (fun m _ => hg m)

/-- Filtering on the recipient then projecting ids is unchanged by a record
transformer that keeps ids and recipients fixed. -/
theorem filter_recip_map_id {l : List RelayMessage} {g : RelayMessage → RelayMessage}
    (hgi : ∀ m, (g m).id = m.id)
    (hgr : ∀ m, (g m).recipient_id = m.recipient_id) (r : String) :
    ((l.map g).filter (fun m => m.recipient_id == r)).map (fun m => m.id)
      = (l.filter (fun m => m.recipient_id == r)).map (fun m => m.id) := by
  rw [List.filter_map, List.map_map]
  have h1 : l.filter ((fun m : RelayMessage => m.recipient_id == r) ∘ g)
      = l.filter (fun m => m.recipient_id == r) := by
    apply List.filter_congr
    intro m _
    simp [Function.comp, hgr m]
  rw [h1]
  exact List.map_congr_left (fun m _ => hgi m)

/-! ## Preservation of the store/index invariant -/

theorem relayInv_init : RelayInv RelayService.init := by
  refine ⟨fun r => rfl, ?_, ?_⟩
  · simp [RelayService.init]
  · intro m hm
    simp [RelayService.init] at hm

theorem relayInv_queue (svc : RelayService) (now : Nat) (s r c k : String)
    (ttl : Option Nat) (hinv : RelayInv svc) :
    RelayInv (svc.queue_message now s r c k ttl).2 := by
  obtain ⟨hidx, hnodup, hbound⟩ := hinv
  simp only [RelayService.queue_message]
  refine ⟨?_, ?_, ?_⟩
  · intro r'
    rw [List.filter_append, List.map_append, ← hidx r']
    by_cases hr : r' = r
    · subst hr
      simp [List.filter_cons, beq_iff_eq]
    · simp [List.filter_cons, beq_iff_eq, hr, Ne.symm hr]
  · rw [List.map_append, List.nodup_append]
    refine ⟨hnodup, List.nodup_singleton _, ?_⟩
    intro a ha hb
    simp only [List.map_cons, List.map_nil, List.mem_singleton] at hb
    obtain ⟨m, hm, hma⟩ := List.mem_map.mp ha
    have := hbound m hm
    subst hb
    omega
  · intro m hm
    rcases List.mem_append.mp hm with h1 | h1
    · exact Nat.lt_succ_of_lt (hbound m h1)
    · simp only [List.mem_singleton] at h1
      subst h1
      exact Nat.lt_succ_self _

/-- A transformer that fixes ids and recipients preserves the invariant. -/
theorem relayInv_map_preserving (svc : RelayService) (g : RelayMessage → RelayMessage)
    (hgi : ∀ m, (g m).id = m.id) (hgr : ∀ m, (g m).recipient_id = m.recipient_id)
    (hinv : RelayInv svc) :
    RelayInv { svc with messages := svc.messages.map g } := by
  obtain ⟨hidx, hnodup, hbound⟩ := hinv
  refine ⟨?_, ?_, ?_⟩
  · intro r'
    show svc.recipient_index r' = _
    rw [filter_recip_map_id hgi hgr r']
    exact hidx r'
  · show ((svc.messages.map g).map _).Nodup
    rw [map_id_of_id_fixed hgi]
    exact hnodup
  · intro m hm
    obtain ⟨m₀, hm₀, rfl⟩ := List.mem_map.mp hm
    rw [hgi m₀]
    exact hbound m₀ hm₀

theorem relayInv_getPending (svc : RelayService) (now : Nat) (r : String)
    (hinv : RelayInv svc) : RelayInv (svc.get_pending_messages now r).2 := by
  simp only [RelayService.get_pending_messages]
  exact relayInv_map_preserving svc _
    (fun m => by split <;> rfl)
    (fun m => by split <;> rfl) hinv

theorem relayInv_ack (svc : RelayService) (mid : Nat) (hinv : RelayInv svc) :
    RelayInv (svc.acknowledge_message mid).2 := by
  obtain ⟨hidx, hnodup, hbound⟩ := hinv
  simp only [RelayService.acknowledge_message]
  cases hfind : svc.messages.find? (fun m => m.id == mid) with
  | none => exact ⟨hidx, hnodup, hbound⟩
  | some msg =>
    have hmem : msg ∈ svc.messages := List.mem_of_find?_eq_some hfind
    have hmsgid : msg.id = mid := by simpa using List.find?_some hfind
    refine ⟨?_, ?_, ?_⟩
    · intro r'
      show (if r' = msg.recipient_id then _ else _) = _
      by_cases hr : r' = msg.recipient_id
      · rw [if_pos hr, hidx r',
          filter_map_id_eq (p := fun m => m.id != mid) (fun m _ => rfl),
          filter_comm_bool]
      · rw [if_neg hr, hidx r', filter_comm_bool]
        congr 1
        refine (List.filter_eq_self.mpr ?_).symm
        intro m hm
        obtain ⟨hm', hmr⟩ := List.mem_filter.mp hm
        have hne : m.id ≠ mid := by
          intro he
          have hmeq : m = msg :=
            mem_id_eq_of_nodup hnodup hm' hmem (he.trans hmsgid.symm)
          subst hmeq
          have : m.recipient_id = r' := by simpa [beq_iff_eq] using hmr
          exact hr this.symm
        simpa using hne
    · exact List.Nodup.sublist ((List.filter_sublist _).map _) hnodup
    · intro m hm
      exact hbound m (List.mem_of_mem_filter hm)

theorem relayInv_cleanup (svc : RelayService) (now : Nat) (hinv : RelayInv svc) :
    RelayInv (svc.cleanup_expired_messages now).2 := by
  obtain ⟨hidx, hnodup, hbound⟩ := hinv
  simp only [RelayService.cleanup_expired_messages]
  refine ⟨?_, ?_, ?_⟩
  · intro r'
    show (svc.recipient_index r').filter _ = _
    rw [hidx r',
      filter_map_id_eq (p := fun m => !m.is_expired now) ?_, filter_comm_bool]
    intro m hm
    obtain ⟨hm', hmr⟩ := List.mem_filter.mp hm
    have hrec : m.recipient_id = r' := by simpa [beq_iff_eq] using hmr
    have key : ((svc.messages.filter (fun x => x.is_expired now)).any
        (fun x => x.id == m.id && x.recipient_id == r')) = m.is_expired now := by
      by_cases hexp : m.is_expired now = true
      · rw [hexp]
        exact List.any_eq_true.mpr
          ⟨m, List.mem_filter.mpr ⟨hm', hexp⟩, by simp [hrec]⟩
      · rw [Bool.not_eq_true] at hexp
        rw [hexp]
        rw [List.any_eq_false]
        intro x hx
        obtain ⟨hx', hxe⟩ := List.mem_filter.mp hx
        intro hcon
        obtain ⟨hxid, -⟩ := (Bool.and_eq_true _ _).mp hcon
        have : x = m := mem_id_eq_of_nodup hnodup hx' hm' (by simpa using hxid)
        subst this
        rw [hxe] at hexp
        cases hexp
    rw [key]
  · exact List.Nodup.sublist ((List.filter_sublist _).map _) hnodup
  · intro m hm
    exact hbound m (List.mem_of_mem_filter hm)

theorem relayInv_applyOp (svc : RelayService) (op : RelayOp) (hinv : RelayInv svc) :
    RelayInv (svc.applyOp op) := by
  cases op with
  | queue now s r c k ttl => exact relayInv_queue svc now s r c k ttl hinv
  | getPending now r => exact relayInv_getPending svc now r hinv
  | ack mid => exact relayInv_ack svc mid hinv
  | cleanup now => exact relayInv_cleanup svc now hinv

theorem relayInv_foldl (l : List RelayOp) (svc : RelayService) (hinv : RelayInv svc) :
    RelayInv (l.foldl RelayService.applyOp svc) := by
  induction l generalizing svc with
  | nil => exact hinv
  | cons op tl ih => exact ih _ (relayInv_applyOp svc op hinv)

theorem relayInv_runRelayOps (ops : List RelayOp) : RelayInv (runRelayOps ops) :=
  relayInv_foldl ops RelayService.init relayInv_init

/-! ## Characterization of get_pending_messages -/

/-- Looking up each id of a sub-collection of the table and keeping the
deliverable records is the same as filtering the sub-collection. -/
theorem filterMap_lookup (svc : RelayService) {sub : List RelayMessage}
    (hnodup : (svc.messages.map (fun m => m.id)).Nodup)
    (hsub : ∀ m ∈ sub, m ∈ svc.messages) (now : Nat) :
    (sub.map (fun m => m.id)).filterMap (svc.lookup_deliverable now)
      = sub.filter (fun m => m.is_deliverable now) := by
  induction sub with
  | nil => rfl
  | cons x tl ih =>
    have hfind := find?_id_of_nodup hnodup (hsub x (List.mem_cons_self x tl))
    have ih' := ih (fun m hm => hsub m (List.mem_cons_of_mem _ hm))
    simp only [List.map_cons, List.filterMap_cons, RelayService.lookup_deliverable,
      hfind]
    by_cases hd : x.is_deliverable now
    · simp [List.filter_cons, hd, ih']
    · simp [List.filter_cons, hd, ih']

/-- Under the store invariant, the records selected by `get_pending_messages`
are exactly the stored records for the recipient that are deliverable now. -/
theorem pending_raw_eq (svc : RelayService) (now : Nat) (r : String)
    (hinv : RelayInv svc) :
    (svc.recipient_index r).filterMap (svc.lookup_deliverable now)
      = svc.messages.filter
          (fun m => m.recipient_id == r && m.is_deliverable now) := by
  obtain ⟨hidx, hnodup, -⟩ := hinv
  rw [hidx r, filterMap_lookup svc hnodup (fun m hm => List.mem_of_mem_filter hm) now,
    List.filter_filter]
  exact List.filter_congr (fun m _ => Bool.and_comm _ _)

/-- The returned list of `get_pending_messages`: the deliverable records for
the recipient, each with its attempt counter bumped and attempt time stamped. -/
theorem get_pending_fst (svc : RelayService) (now : Nat) (r : String)
    (hinv : RelayInv svc) :
    (svc.get_pending_messages now r).1
      = (svc.messages.filter
            (fun m => m.recipient_id == r && m.is_deliverable now)).map
          (fun m => m.record_delivery_attempt now) := by
  simp only [RelayService.get_pending_messages]
  rw [pending_raw_eq svc now r hinv]

/-- The post-state of `get_pending_messages`: every selected record is bumped
in place, every other record is untouched. -/
theorem get_pending_state_messages (svc : RelayService) (now : Nat) (r : String)
    (hinv : RelayInv svc) :
    (svc.get_pending_messages now r).2.messages
      = svc.messages.map (fun m =>
          if m.recipient_id == r && m.is_deliverable now
          then m.record_delivery_attempt now else m) := by
  simp only [RelayService.get_pending_messages]
  apply List.map_congr_left
  intro m hm
  have hany : (((svc.recipient_index r).filterMap (svc.lookup_deliverable now)).any
      (fun p => p.id == m.id)) = (m.recipient_id == r && m.is_deliverable now) := by
    rw [pending_raw_eq svc now r hinv]
    by_cases hc : (m.recipient_id == r && m.is_deliverable now) = true
    · rw [hc]
      exact List.any_eq_true.mpr ⟨m, List.mem_filter.mpr ⟨hm, hc⟩, by simp⟩
    · have hcf : (m.recipient_id == r && m.is_deliverable now) = false := by
        cases h' : (m.recipient_id == r && m.is_deliverable now)
        · rfl
        · exact absurd h' hc
      rw [hcf, List.any_eq_false]
      intro p hp
      obtain ⟨hp', hpp⟩ := List.mem_filter.mp hp
      intro hcon
      have hpm : p = m :=
        mem_id_eq_of_nodup hinv.2.1 hp' hm (by simpa using hcon)
      subst hpm
      rw [hpp] at hcf
      cases hcf
  rw [hany]

/-- get_pending_messages leaves the index, online set, TTL configuration and
allocation counter untouched. -/
theorem get_pending_other_fields (svc : RelayService) (now : Nat) (r : String) :
    (svc.get_pending_messages now r).2.recipient_index = svc.recipient_index
    ∧ (svc.get_pending_messages now r).2.online_users = svc.online_users
    ∧ (svc.get_pending_messages now r).2.default_ttl_days = svc.default_ttl_days
    ∧ (svc.get_pending_messages now r).2.next_id = svc.next_id :=
  ⟨rfl, rfl, rfl, rfl⟩

/-! ## Preservation of the presence invariant -/

theorem isEmpty_false_of_ne_nil {l : List Nat} (h : l ≠ []) : l.isEmpty = false := by
  cases l with
  | nil => exact absurd rfl h
  | cons a l => rfl

theorem presenceInv_init : PresenceInv ServerState.init := by
  intro u
  rfl

theorem presenceInv_disconnect (st : ServerState) (u : String) (w : Option Nat)
    (hinv : PresenceInv st) : PresenceInv (st.disconnect u w).1 := by
  cases w with
  | none =>
    intro v
    simp only [ServerState.disconnect, List.isEmpty_nil, if_pos,
      RelayService.mark_user_offline]
    by_cases hv : v = u
    · simp [hv]
    · simp [hv, hinv v]
  | some w' =>
    intro v
    simp only [ServerState.disconnect]
    by_cases hempty : ((st.active_connections u).erase w').isEmpty
    · rw [if_pos hempty]
      simp only [RelayService.mark_user_offline]
      by_cases hv : v = u
      · simp [hv, hempty]
      · simp [hv, hinv v]
    · rw [if_neg hempty]
      by_cases hv : v = u
      · subst hv
        have horig : st.active_connections v ≠ [] := by
          intro h0
          rw [h0] at hempty
          exact hempty rfl
        simp only [if_pos rfl]
        rw [hinv v, isEmpty_false_of_ne_nil horig,
          isEmpty_false_of_ne_nil (by simpa using hempty)]
      · simp [hv, hinv v]

theorem presenceInv_connect (st : ServerState) (now : Nat) (u : String) (ws : Nat)
    (hinv : PresenceInv st) : PresenceInv (st.connect now u ws).1 := by
  intro v
  simp only [ServerState.connect, RelayService.get_pending_messages,
    RelayService.mark_user_online]
  by_cases hv : v = u
  · simp [hv]
  · simp [hv, hinv v]

theorem presenceInv_prune_dead (u : String) (l : List Nat) :
    ∀ acc : ServerState × List Event, PresenceInv acc.1 →
      PresenceInv (ServerState.prune_dead u acc l).1 := by
  induction l with
  | nil =>
    intro acc h
    exact h
  | cons w ws ih =>
    intro acc h
    simp only [ServerState.prune_dead]
    exact ih _ (presenceInv_disconnect acc.1 u (some w) h)

theorem presenceInv_send_personal (st : ServerState) (u : String) (msgId : Nat)
    (dead : List Nat) (hinv : PresenceInv st) :
    PresenceInv (st.send_personal_message u msgId dead).2.1 := by
  simp only [ServerState.send_personal_message]
  split
  · exact hinv
  · exact presenceInv_prune_dead u _ (st, []) hinv

theorem queue_online_users (svc : RelayService) (now : Nat) (s r c k : String)
    (ttl : Option Nat) :
    (svc.queue_message now s r c k ttl).2.online_users = svc.online_users := rfl

theorem ack_online_users (svc : RelayService) (mid : Nat) :
    (svc.acknowledge_message mid).2.online_users = svc.online_users := by
  simp only [RelayService.acknowledge_message]
  split <;> rfl

theorem cleanup_online_users (svc : RelayService) (now : Nat) :
    (svc.cleanup_expired_messages now).2.online_users = svc.online_users := rfl

theorem presenceInv_send_relay (st : ServerState) (now : Nat)
    (s r c k : String) (ttl : Option Nat) (dead : List Nat)
    (hinv : PresenceInv st) :
    PresenceInv (st.send_relay_message now s r c k ttl dead).2.1 := by
  have hq : PresenceInv { st with relay := (st.relay.queue_message now s r c k ttl).2 } := by
    intro v
    show (st.relay.queue_message now s r c k ttl).2.online_users v = _
    rw [queue_online_users]
    exact hinv v
  simp only [ServerState.send_relay_message]
  split
  · exact presenceInv_send_personal _ r _ dead hq
  · exact hq

theorem presenceInv_group_loop (msgId : Nat) (dead : List Nat) (rs : List String) :
    ∀ st : ServerState, PresenceInv st →
      PresenceInv (ServerState.group_fanout_loop msgId dead st rs).2.2.1 := by
  induction rs with
  | nil =>
    intro st h
    exact h
  | cons r rest ih =>
    intro st h
    simp only [ServerState.group_fanout_loop]
    split
    · exact ih st h
    · exact ih _ (presenceInv_send_personal st r msgId dead h)

theorem presenceInv_applyOp (st : ServerState) (op : ServerOp)
    (hinv : PresenceInv st) : PresenceInv (st.applyOp op) := by
  cases op with
  | connect now u ws => exact presenceInv_connect st now u ws hinv
  | disconnect u w => exact presenceInv_disconnect st u w hinv
  | sendPersonal u mid dead => exact presenceInv_send_personal st u mid dead hinv
  | sendRelay now s r c k ttl dead => exact presenceInv_send_relay st now s r c k ttl dead hinv
  | groupBroadcast g mid dead => exact presenceInv_group_loop mid dead _ st hinv
  | ackMessage mid =>
    intro v
    show (st.relay.acknowledge_message mid).2.online_users v = _
    rw [ack_online_users]
    exact hinv v
  | cleanup now =>
    intro v
    show (st.relay.cleanup_expired_messages now).2.online_users v = _
    rw [cleanup_online_users]
    exact hinv v
  | restPending now u =>
    intro v
    show (st.relay.get_pending_messages now u).2.online_users v = _
    rw [(get_pending_other_fields st.relay now u).2.1]
    exact hinv v

theorem presenceInv_foldl (l : List ServerOp) (st : ServerState)
    (hinv : PresenceInv st) : PresenceInv (l.foldl ServerState.applyOp st) := by
  induction l generalizing st with
  | nil => exact hinv
  | cons op tl ih => exact ih _ (presenceInv_applyOp st op hinv)

theorem presenceInv_runServerOps (ops : List ServerOp) :
    PresenceInv (runServerOps ops) :=
  presenceInv_foldl ops ServerState.init presenceInv_init

/-! ## Helper lemmas for acknowledge_message -/

theorem ack_fst_false_of_not_mem (svc : RelayService) (mid : Nat)
    (h : ∀ m ∈ svc.messages, m.id ≠ mid) :
    (svc.acknowledge_message mid).1 = false := by
  have hnone : svc.messages.find? (fun m => m.id == mid) = none :=
    List.find?_eq_none.mpr (fun m hm => by simpa using h m hm)
  simp [RelayService.acknowledge_message, hnone]

theorem ack_snd_self_of_not_mem (svc : RelayService) (mid : Nat)
    (h : ∀ m ∈ svc.messages, m.id ≠ mid) :
    (svc.acknowledge_message mid).2 = svc := by
  have hnone : svc.messages.find? (fun m => m.id == mid) = none :=
    List.find?_eq_none.mpr (fun m hm => by simpa using h m hm)
  simp [RelayService.acknowledge_message, hnone]

/-- Deleting the unique record with a given id shrinks the table by one. -/
theorem length_filter_ne_id {l : List RelayMessage}
    (hnodup : (l.map (fun m => m.id)).Nodup) {msg : RelayMessage}
    (hmem : msg ∈ l) :
    (l.filter (fun m => m.id != msg.id)).length + 1 = l.length := by
  induction l with
  | nil => cases hmem
  | cons x tl ih =>
    simp only [List.map_cons, List.nodup_cons] at hnodup
    rcases List.mem_cons.mp hmem with rfl | hmem'
    · have htl : tl.filter (fun m => m.id != msg.id) = tl := by
        apply List.filter_eq_self.mpr
        intro m hm
        have hne : m.id ≠ msg.id := by
          intro he
          exact hnodup.1 (he ▸ List.mem_map_of_mem (fun m => m.id) hm)
        simpa using hne
      simp [List.filter_cons, htl]
    · have hxne : x.id ≠ msg.id := by
        intro he
        exact hnodup.1 (he ▸ List.mem_map_of_mem (fun m => m.id) hmem')
      have hih := ih hnodup.2 hmem'
      have hcond : (x.id != msg.id) = true := by simpa using hxne
      simp only [List.filter_cons, hcond, if_true, List.length_cons]
      omega

/-! ## Claim C5 -/

/-- C5 counterexample: a message queued at time t0 = 0 with TTL T = 5 is
still deliverable at exactly now = t0 + T = 5 (the code only expires
strictly after `expires_at`), whereas the claim demands `is_deliverable()`
be false at every now ≥ t0 + T. -/
theorem C5_boundary_counterexample :
    wMsg5.created_at = 0 ∧ wMsg5.expires_at = 0 + 5 ∧
    wMsg5.acknowledged = false ∧ wMsg5.is_deliverable (0 + 5) = true := by
  decide

/-- C5 (amended): for a message queued at time t0 with a positive TTL T,
`is_deliverable()` is true at every now with t0 ≤ now ≤ t0 + T (the boundary
now = t0 + T included) and false at every now > t0 + T, the latter
regardless of the acknowledged flag. -/
theorem C5_deliverability_window (svc : RelayService) (t0 T : Nat)
    (s r c k : String) (hT : 0 < T) :
    (∀ now, now ≤ t0 + T →
      (svc.queue_message t0 s r c k (some T)).1.is_deliverable now = true)
    ∧ (∀ (m : RelayMessage) (now : Nat), m.expires_at = t0 + T → t0 + T < now →
        m.is_deliverable now = false) := by
  constructor
  · intro now hnow
    have hT0 : (T == 0) = false := by
      simp [Nat.pos_iff_ne_zero.mp hT]
    have hnlt : ¬ (t0 + T < now) := Nat.not_lt.mpr hnow
    simp [RelayService.queue_message, RelayMessage.is_deliverable,
      RelayMessage.is_expired, hT0, hnlt]
  · intro m now he hlt
    simp [RelayMessage.is_deliverable, RelayMessage.is_expired, he, hlt]

theorem C5_window_witness :
    (0:Nat) < 5
    ∧ (RelayService.init.queue_message 0 "a" "b" "c" "k" (some 5)).1.is_deliverable 3 = true
    ∧ wMsg5.is_deliverable 9 = false :=
  ⟨by decide,
   (C5_deliverability_window RelayService.init 0 5 "a" "b" "c" "k" (by decide)).1
     3 (by decide),
   (C5_deliverability_window RelayService.init 0 5 "a" "b" "c" "k" (by decide)).2
     wMsg5 9 (by decide) (by decide)⟩

/-! ## Claim C7 -/

/-- C7: acknowledge is an idempotent delete that never raises.  When the id
is stored it returns true, removes the record (the store shrinks by exactly
one) and purges the id from the secondary index; when the id is absent it
returns false and leaves the store untouched; a second acknowledge of the
same id always returns false. -/
theorem C7_acknowledge_idempotent_delete (svc : RelayService) (mid : Nat)
    (hinv : RelayInv svc) :
    ((∃ m ∈ svc.messages, m.id = mid) →
       (svc.acknowledge_message mid).1 = true
       ∧ (svc.acknowledge_message mid).2.messages.length + 1 = svc.messages.length
       ∧ (∀ m ∈ (svc.acknowledge_message mid).2.messages, m.id ≠ mid)
       ∧ (∀ r, mid ∉ (svc.acknowledge_message mid).2.recipient_index r))
    ∧ ((∀ m ∈ svc.messages, m.id ≠ mid) →
       (svc.acknowledge_message mid).1 = false
       ∧ (svc.acknowledge_message mid).2 = svc)
    ∧ ((svc.acknowledge_message mid).2.acknowledge_message mid).1 = false := by
  obtain ⟨hidx, hnodup, hbound⟩ := hinv
  cases hfind : svc.messages.find? (fun m => m.id == mid) with
  | none =>
    have habs : ∀ m ∈ svc.messages, m.id ≠ mid := by
      intro m hm he
      have := List.find?_eq_none.mp hfind m hm
      simp [he] at this
    refine ⟨?_, ?_, ?_⟩
    · rintro ⟨m, hm, hmid⟩
      exact absurd hmid (habs m hm)
    · intro h
      exact ⟨ack_fst_false_of_not_mem svc mid habs,
        ack_snd_self_of_not_mem svc mid habs⟩
    · rw [ack_snd_self_of_not_mem svc mid habs]
      exact ack_fst_false_of_not_mem svc mid habs
  | some msg =>
    have hmem : msg ∈ svc.messages := List.mem_of_find?_eq_some hfind
    have hmsgid : msg.id = mid := by simpa using List.find?_some hfind
    have hmsgs : (svc.acknowledge_message mid).2.messages
        = svc.messages.filter (fun m => m.id != mid) := by
      simp [RelayService.acknowledge_message, hfind]
    have hidx' : (svc.acknowledge_message mid).2.recipient_index
        = fun r => if r = msg.recipient_id then
            (svc.recipient_index r).filter (fun mid' => mid' != mid)
          else svc.recipient_index r := by
      simp [RelayService.acknowledge_message, hfind]
    have hall' : ∀ m ∈ (svc.acknowledge_message mid).2.messages, m.id ≠ mid := by
      intro m hm
      rw [hmsgs] at hm
      obtain ⟨-, hmne⟩ := List.mem_filter.mp hm
      simpa using hmne
    refine ⟨?_, ?_, ?_⟩
    · intro h
      refine ⟨by simp [RelayService.acknowledge_message, hfind], ?_, hall', ?_⟩
      · rw [hmsgs, ← hmsgid]
        exact length_filter_ne_id hnodup hmem
      · intro r
        simp only [hidx']
        by_cases hr : r = msg.recipient_id
        · rw [if_pos hr]
          intro hcon
          obtain ⟨-, hne⟩ := List.mem_filter.mp hcon
          simp at hne
        · rw [if_neg hr]
          intro hcon
          rw [hidx r] at hcon
          obtain ⟨m, hm', hmid⟩ := List.mem_map.mp hcon
          obtain ⟨hm'', hmr⟩ := List.mem_filter.mp hm'
          have hmm : m = msg :=
            mem_id_eq_of_nodup hnodup hm'' hmem (hmid.trans hmsgid.symm)
          subst hmm
          have hreq : m.recipient_id = r := by simpa [beq_iff_eq] using hmr
          exact hr hreq.symm
    · intro h
      exact absurd hmsgid (h msg hmem)
    · exact ack_fst_false_of_not_mem _ mid hall'

theorem C7_acknowledge_witness :
    (wRelay.acknowledge_message 0).1 = true
    ∧ (wRelay.acknowledge_message 0).2.messages.length + 1 = wRelay.messages.length
    ∧ ((wRelay.acknowledge_message 0).2.acknowledge_message 0).1 = false := by
  have h := C7_acknowledge_idempotent_delete wRelay 0 (relayInv_runRelayOps _)
  have hex : ∃ m ∈ wRelay.messages, m.id = 0 := by decide
  exact ⟨(h.1 hex).1, (h.1 hex).2.1, h.2.2⟩

/-! ## Claim C8 -/

/-- C8: after any sequence of RelayStore operations starting from the empty
store, the message table and the recipient secondary index agree: every id
in some recipient's index entry names a stored record addressed to that
recipient, and every stored record's id appears in exactly the index entry
of its own recipient. -/
theorem C8_index_table_agree (ops : List RelayOp) :
    (∀ r mid, mid ∈ (runRelayOps ops).recipient_index r →
       ∃ m ∈ (runRelayOps ops).messages, m.id = mid ∧ m.recipient_id = r)
    ∧ (∀ m ∈ (runRelayOps ops).messages, ∀ r,
       (m.id ∈ (runRelayOps ops).recipient_index r ↔ r = m.recipient_id)) := by
  obtain ⟨hidx, hnodup, -⟩ := relayInv_runRelayOps ops
  constructor
  · intro r mid hmem
    rw [hidx r] at hmem
    obtain ⟨m, hm, rfl⟩ := List.mem_map.mp hmem
    obtain ⟨hm', hmr⟩ := List.mem_filter.mp hm
    refine ⟨m, hm', rfl, ?_⟩
    simpa [beq_iff_eq] using hmr
  · intro m hm r
    constructor
    · intro hmem
      rw [hidx r] at hmem
      obtain ⟨m', hm', hmid⟩ := List.mem_map.mp hmem
      obtain ⟨hm'', hm'r⟩ := List.mem_filter.mp hm'
      have hmm : m' = m := mem_id_eq_of_nodup hnodup hm'' hm hmid
      have hreq : m.recipient_id = r := by
        rw [← hmm]
        simpa [beq_iff_eq] using hm'r
      exact hreq.symm
    · intro hr
      rw [hidx r]
      exact List.mem_map.mpr
        ⟨m, List.mem_filter.mpr ⟨hm, by simp [beq_iff_eq, hr]⟩, rfl⟩

theorem C8_index_witness :
    ∃ m ∈ (runRelayOps [RelayOp.queue 3 "alice" "bob" "ct" "sk" none]).messages,
      m.id = 0 ∧ m.recipient_id = "bob" :=
  (C8_index_table_agree [RelayOp.queue 3 "alice" "bob" "ct" "sk" none]).1
    "bob" 0 (by decide)

/-! ## Claim C9 -/

/-- C9: get_pending returns exactly the stored deliverable records for the
recipient, increments each returned record's attempt counter and stamps its
attempt time, changes nothing else (index, online set, other records), never
changes any record's deliverability at any time, and a repeated call returns
the same records again with the counters grown once more. -/
theorem C9_get_pending_spec (svc : RelayService) (now : Nat) (r : String)
    (hinv : RelayInv svc) :
    ((svc.get_pending_messages now r).1
       = (svc.messages.filter
            (fun m => m.recipient_id == r && m.is_deliverable now)).map
           (fun m => m.record_delivery_attempt now))
    ∧ ((svc.get_pending_messages now r).2.messages
       = svc.messages.map (fun m =>
           if m.recipient_id == r && m.is_deliverable now
           then m.record_delivery_attempt now else m))
    ∧ ((svc.get_pending_messages now r).2.recipient_index = svc.recipient_index)
    ∧ ((svc.get_pending_messages now r).2.online_users = svc.online_users)
    ∧ (∀ now', (svc.get_pending_messages now r).2.messages.map
          (fun m => (m.id, m.is_deliverable now'))
        = svc.messages.map (fun m => (m.id, m.is_deliverable now')))
    ∧ (((svc.get_pending_messages now r).2.get_pending_messages now r).1
       = (svc.get_pending_messages now r).1.map
           (fun m => m.record_delivery_attempt now)) := by
  refine ⟨get_pending_fst svc now r hinv, get_pending_state_messages svc now r hinv,
    rfl, rfl, ?_, ?_⟩
  · intro now'
    rw [get_pending_state_messages svc now r hinv, List.map_map]
    apply List.map_congr_left
    intro m hm
    simp only [Function.comp_apply]
    split <;> rfl
  · have hinv' := relayInv_getPending svc now r hinv
    rw [get_pending_fst _ now r hinv', get_pending_fst svc now r hinv,
      get_pending_state_messages svc now r hinv, List.map_map, List.filter_map,
      List.map_map]
    have hpred : svc.messages.filter
        ((fun m => m.recipient_id == r && m.is_deliverable now) ∘
          (fun m => if m.recipient_id == r && m.is_deliverable now
            then m.record_delivery_attempt now else m))
        = svc.messages.filter (fun m => m.recipient_id == r && m.is_deliverable now) := by
      apply List.filter_congr
      intro m hm
      simp only [Function.comp_apply]
      split <;> rfl
    rw [hpred]
    apply List.map_congr_left
    intro m hm
    obtain ⟨-, hmp⟩ := List.mem_filter.mp hm
    simp only [Function.comp_apply]
    rw [if_pos hmp]

theorem C9_get_pending_witness :
    (wRelay.get_pending_messages 1 "bob").1
      = (wRelay.messages.filter
           (fun m => m.recipient_id == "bob" && m.is_deliverable 1)).map
          (fun m => m.record_delivery_attempt 1) :=
  (C9_get_pending_spec wRelay 1 "bob" (relayInv_runRelayOps _)).1

/-! ## Characterizations of disconnect -/

theorem disconnect_conns_self (st : ServerState) (u : String) (w : Option Nat) :
    (st.disconnect u w).1.active_connections u
      = match w with
        | some w' => (st.active_connections u).erase w'
        | none => [] := by
  simp only [ServerState.disconnect]
  split <;> simp

theorem disconnect_evs (st : ServerState) (u : String) (w : Option Nat) :
    (st.disconnect u w).2
      = if ((match w with
          | some w' => (st.active_connections u).erase w'
          | none => ([] : List Nat))).isEmpty
        then [Event.offlineNotif u] else [] := by
  simp only [ServerState.disconnect]
  split <;> simp_all

/-! ## Claim C3 -/

/-- C3: the cleanup form of disconnect invoked by the websocket endpoint's
exit path (`manager.disconnect(user_id)`, no connection handle) removes all
of the user's registered connections and marks the user offline in the relay
service, even when several devices were live; other users are untouched. -/
theorem C3_cleanup_removes_all_devices (st : ServerState) (u : String) :
    ((st.websocket_endpoint_cleanup u).1.active_connections u = [])
    ∧ ((st.websocket_endpoint_cleanup u).1.relay.is_user_online u = false)
    ∧ (∀ v, v ≠ u →
        (st.websocket_endpoint_cleanup u).1.active_connections v
          = st.active_connections v) := by
  refine ⟨?_, ?_, ?_⟩
  · simp [ServerState.websocket_endpoint_cleanup, ServerState.disconnect]
  · simp [ServerState.websocket_endpoint_cleanup, ServerState.disconnect,
      RelayService.mark_user_offline, RelayService.is_user_online]
  · intro v hv
    simp [ServerState.websocket_endpoint_cleanup, ServerState.disconnect, hv]

theorem C3_cleanup_witness :
    ((wServerBob.websocket_endpoint_cleanup "bob").1.active_connections "bob" = [])
    ∧ ((wServerBob.websocket_endpoint_cleanup "bob").1.relay.is_user_online "bob" = false)
    ∧ ((wServerBob.websocket_endpoint_cleanup "bob").1.active_connections "alice"
        = wServerBob.active_connections "alice") := by
  have h := C3_cleanup_removes_all_devices wServerBob "bob"
  exact ⟨h.1, h.2.1, h.2.2 "alice" (by decide)⟩

/-! ## Claim C4 -/

/-- C4: in every state reachable by any sequence of the public connect /
disconnect / send (and store) operations from the initial state, a user is
reported online exactly when the connection table holds at least one live
connection for it; the relay service's stored online set and the
connection-derived check always agree, so the stored presence cannot drift
from the connection collection. -/
theorem C4_presence_no_drift (ops : List ServerOp) (u : String) :
    ((runServerOps ops).relay.is_user_online u = (runServerOps ops).is_user_online u)
    ∧ ((runServerOps ops).relay.is_user_online u = true
        ↔ (runServerOps ops).active_connections u ≠ []) := by
  have h := presenceInv_runServerOps ops u
  constructor
  · exact h
  · constructor
    · intro ht hnil
      have hfalse : (runServerOps ops).relay.is_user_online u = false := by
        show (runServerOps ops).relay.online_users u = false
        rw [h]
        simp [hnil]
      rw [ht] at hfalse
      cases hfalse
    · intro hne
      show (runServerOps ops).relay.online_users u = true
      rw [h, isEmpty_false_of_ne_nil hne]
      rfl

theorem C4_presence_witness :
    (runServerOps [ServerOp.connect 0 "bob" 5]).relay.is_user_online "bob"
      = (runServerOps [ServerOp.connect 0 "bob" 5]).is_user_online "bob" :=
  (C4_presence_no_drift [ServerOp.connect 0 "bob" 5] "bob").1

/-! ## Claim C6 -/

/-- C6 counterexample: `alice` already owns a live connection, yet a second
connect still publishes an online notification — the claim says a connect
for a user who already has a live connection emits none. -/
theorem C6_duplicate_online_counterexample :
    wServerAlice.active_connections "alice" ≠ []
    ∧ Event.onlineNotif "alice" ∈ (wServerAlice.connect 0 "alice" 2).2 := by
  constructor
  · decide
  · decide

/-- C6 (amended): every connect publishes exactly one online notification,
whether or not the user already had live connections; a disconnect publishes
an offline notification exactly when it leaves the user's connection set
empty — in particular, disconnecting one of N ≥ 2 connections publishes
nothing. -/
theorem C6_notification_discipline (st : ServerState) (now : Nat) (u : String)
    (ws : Nat) :
    ((st.connect now u ws).2.count (Event.onlineNotif u) = 1)
    ∧ (∀ w, (st.disconnect u w).2
        = if ((st.disconnect u w).1.active_connections u).isEmpty
          then [Event.offlineNotif u] else [])
    ∧ (∀ w, 2 ≤ (st.active_connections u).length →
        (st.disconnect u (some w)).2 = []) := by
  refine ⟨?_, ?_, ?_⟩
  · simp only [ServerState.connect]
    rw [List.count_cons]
    have hnot : Event.onlineNotif u ∉
        (((st.relay.mark_user_online u).get_pending_messages now u).1.map
          (fun m => Event.push u ws m.id)) := by
      intro hmem
      obtain ⟨m, -, hEq⟩ := List.mem_map.mp hmem
      cases hEq
    rw [List.count_eq_zero.mpr hnot]
    simp
  · intro w
    rw [disconnect_evs, disconnect_conns_self]
  · intro w h2
    rw [disconnect_evs]
    have hne : (st.active_connections u).erase w ≠ [] := by
      intro h0
      have hl := List.length_erase w (st.active_connections u)
      rw [h0] at hl
      simp only [List.length_nil] at hl
      split at hl <;> omega
    simp only [isEmpty_false_of_ne_nil hne]
    simp

theorem C6_notification_witness :
    ((wServerAlice.connect 0 "alice" 2).2.count (Event.onlineNotif "alice") = 1)
    ∧ (2 ≤ ((wServerAlice.connect 0 "alice" 2).1.active_connections "alice").length)
    ∧ (((wServerAlice.connect 0 "alice" 2).1.disconnect "alice" (some 1)).2 = []) := by
  have h1 := C6_notification_discipline wServerAlice 0 "alice" 2
  have h2 := C6_notification_discipline (wServerAlice.connect 0 "alice" 2).1 0 "alice" 99
  exact ⟨h1.1, by decide, h2.2.2 1 (by decide)⟩

/-! ## Claim C10 -/

/-- C10: every connect drains the relay messages pending for the connecting
user: each stored deliverable record addressed to the user is pushed over the
newly registered connection, and every event the connect emits is either the
online notification or a push on that new connection — none of the user's
other already-registered connections receives a drained message. -/
theorem C10_drain_to_new_connection (st : ServerState) (now : Nat)
    (u : String) (ws : Nat) (hinv : RelayInv st.relay) :
    (∀ e ∈ (st.connect now u ws).2,
       e = Event.onlineNotif u ∨ ∃ mid, e = Event.push u ws mid)
    ∧ (∀ m ∈ st.relay.messages, m.recipient_id = u → m.is_deliverable now = true →
       Event.push u ws m.id ∈ (st.connect now u ws).2) := by
  constructor
  · intro e he
    simp only [ServerState.connect] at he
    rcases List.mem_cons.mp he with rfl | he'
    · exact Or.inl rfl
    · obtain ⟨m, -, rfl⟩ := List.mem_map.mp he'
      exact Or.inr ⟨m.id, rfl⟩
  · intro m hm hrec hdel
    simp only [ServerState.connect]
    apply List.mem_cons_of_mem
    have hinv' : RelayInv (st.relay.mark_user_online u) := hinv
    rw [get_pending_fst (st.relay.mark_user_online u) now u hinv', List.map_map]
    apply List.mem_map.mpr
    refine ⟨m, ?_, rfl⟩
    apply List.mem_filter.mpr
    refine ⟨hm, ?_⟩
    simp [beq_iff_eq, hrec, hdel]

theorem C10_drain_witness :
    Event.push "bob" 7 0 ∈ (wServerDrain.connect 1 "bob" 7).2 :=
  (C10_drain_to_new_connection wServerDrain 1 "bob" 7 (relayInv_runRelayOps _)).2
    (RelayService.init.queue_message 0 "alice" "bob" "ct" "sk" none).1
    (by decide) (by decide) (by decide)

/-! ## Fan-out with no transport failures -/

theorem send_personal_nodead (st : ServerState) (u : String) (msgId : Nat) :
    st.send_personal_message u msgId []
      = (!(st.active_connections u).isEmpty, st,
         (st.active_connections u).map (fun c => Event.push u c msgId)) := by
  simp only [ServerState.send_personal_message]
  by_cases hempty : (st.active_connections u).isEmpty
  · rw [if_pos hempty]
    have hnil : st.active_connections u = [] := by
      cases hc : st.active_connections u
      · rfl
      · rw [hc] at hempty
        cases hempty
    simp [hnil]
  · rw [if_neg hempty]
    have h1 : (st.active_connections u).filter
        (fun ws => !(([] : List Nat).contains ws)) = st.active_connections u := by
      apply List.filter_eq_self.mpr
      intro a ha
      simp
    have h2 : (st.active_connections u).filter
        (fun ws => ([] : List Nat).contains ws) = [] := by
      simp
    have h3 : (st.active_connections u).any
        (fun ws => !(([] : List Nat).contains ws))
        = !(st.active_connections u).isEmpty := by
      cases hc : st.active_connections u <;> simp
    rw [h1, h2, h3]
    simp [ServerState.prune_dead]

theorem group_fanout_loop_nodead (msgId : Nat) (st : ServerState)
    (rs : List String) :
    ServerState.group_fanout_loop msgId [] st rs
      = ((rs.filter (fun r => !(st.active_connections r).isEmpty)).length,
         (rs.filter (fun r => (st.active_connections r).isEmpty)).length,
         st,
         rs.flatMap (fun r =>
           if (st.active_connections r).isEmpty then []
           else (st.active_connections r).map (fun c => Event.push r c msgId))) := by
  induction rs with
  | nil => simp [ServerState.group_fanout_loop]
  | cons r rest ih =>
    simp only [ServerState.group_fanout_loop]
    by_cases hr : (st.active_connections r).isEmpty
    · rw [if_pos hr, ih]
      have hnil : st.active_connections r = [] := by
        cases hc : st.active_connections r
        · rfl
        · rw [hc] at hr
          cases hr
      simp [List.filter_cons, hr, hnil]
    · rw [if_neg hr, send_personal_nodead, ih]
      have hnn : st.active_connections r ≠ [] := by
        intro h0
        rw [h0] at hr
        exact hr rfl
      simp [List.filter_cons, hr, hnn]

/-! ## Claim C2 -/

/-- C2 counterexample: group `wGroup` is owned by `alice` with members
`bob` and `carol`; `bob` — the sender of the message — is online on
connection 2 and still receives the group broadcast on his own connection,
whereas the claim states the sender's own connections never receive the
group message.  (`carol` is offline, so the reported offline count is 1.) -/
theorem C2_sender_receives_counterexample :
    Event.push "bob" 2 7 ∈ (wGroupState.broadcast_to_group wGroup 7 []).2.2.2
    ∧ (wGroupState.broadcast_to_group wGroup 7 []).2.1 = 1 := by
  constructor <;> decide

/-- C2 (amended): broadcast_to_group resolves the recipient set as the
group's member set plus its owner/admin identity and does NOT remove the
sender: when no transport fails, every resolved recipient with a live
connection (the sender included) receives the message on each of its
connections, the reported offline count is the number of resolved recipients
with no live connection, and the connection state is unchanged. -/
theorem C2_group_fanout_no_sender_removal (st : ServerState) (group : GroupInfo)
    (msgId : Nat) :
    ((st.broadcast_to_group group msgId []).1
       = (((group.member_ids ++ [group.admin_id]).dedup).filter
            (fun r => !(st.active_connections r).isEmpty)).length)
    ∧ ((st.broadcast_to_group group msgId []).2.1
       = (((group.member_ids ++ [group.admin_id]).dedup).filter
            (fun r => (st.active_connections r).isEmpty)).length)
    ∧ ((st.broadcast_to_group group msgId []).2.2.1 = st)
    ∧ (∀ u c mid,
        Event.push u c mid ∈ (st.broadcast_to_group group msgId []).2.2.2
        ↔ (u ∈ (group.member_ids ++ [group.admin_id]).dedup
           ∧ c ∈ st.active_connections u ∧ mid = msgId)) := by
  have hloop := group_fanout_loop_nodead msgId st
    ((group.member_ids ++ [group.admin_id]).dedup)
  refine ⟨?_, ?_, ?_, ?_⟩
  · simp only [ServerState.broadcast_to_group, hloop]
  · simp only [ServerState.broadcast_to_group, hloop]
  · simp only [ServerState.broadcast_to_group, hloop]
  · intro u c mid
    simp only [ServerState.broadcast_to_group, hloop]
    rw [List.mem_flatMap]
    constructor
    · rintro ⟨r, hr, hmem⟩
      by_cases hre : (st.active_connections r).isEmpty
      · rw [if_pos hre] at hmem
        cases hmem
      · rw [if_neg hre] at hmem
        obtain ⟨c', hc', hEq⟩ := List.mem_map.mp hmem
        rw [Event.push.injEq] at hEq
        obtain ⟨rfl, rfl, rfl⟩ := hEq
        exact ⟨hr, hc', rfl⟩
    · rintro ⟨hu, hc, rfl⟩
      refine ⟨u, hu, ?_⟩
      have hne : (st.active_connections u).isEmpty = false :=
        isEmpty_false_of_ne_nil (by
          intro h0
          rw [h0] at hc
          cases hc)
      simp only [hne]
      simp only [Bool.false_eq_true, if_false]
      exact List.mem_map.mpr ⟨c, hc, rfl⟩

theorem C2_group_fanout_witness :
    (wGroupState.broadcast_to_group wGroup 7 []).1 = 2
    ∧ Event.push "alice" 1 7 ∈ (wGroupState.broadcast_to_group wGroup 7 []).2.2.2 := by
  have h := C2_group_fanout_no_sender_removal wGroupState wGroup 7
  constructor
  · rw [h.1]
    decide
  · exact (h.2.2.2 "alice" 1 7).mpr ⟨by decide, by decide, rfl⟩

/-! ## Claim C1 -/

/-- C1 counterexample: `bob` is online and the relay send delivers the
message instantly over his live connection — the response status is
"delivered" and a push event occurs — yet a record with that message id is
present in the relay store after the send completes, whereas the claim says
the message is never written to RelayStore. -/
theorem C1_instant_delivery_still_stored_counterexample :
    ((wServerBob.send_relay_message 1 "alice" "bob" "hello" "key" none []).1.status
      = "delivered")
    ∧ (Event.push "bob" 5
        (wServerBob.send_relay_message 1 "alice" "bob" "hello" "key" none []).1.message_id
        ∈ (wServerBob.send_relay_message 1 "alice" "bob" "hello" "key" none []).2.2)
    ∧ (∃ m ∈ (wServerBob.send_relay_message 1 "alice" "bob" "hello" "key" none
          []).2.1.relay.messages,
        m.id = (wServerBob.send_relay_message 1 "alice" "bob" "hello" "key" none
          []).1.message_id) := by
  refine ⟨?_, ?_, ?_⟩ <;> decide

/-- C1 (amended): the relay send handler always writes the message to
RelayStore first; the stored record with the new message id is still present
after the send completes even when the recipient is online and the message
is instantly pushed over a live connection, in which case the sender's
synchronous response reports status "delivered". -/
theorem C1_send_always_stores (st : ServerState) (now : Nat)
    (sender recipient content key : String) (ttl : Option Nat)
    (honline : st.relay.is_user_online recipient = true)
    (hconns : st.active_connections recipient ≠ []) :
    (∃ m ∈ (st.send_relay_message now sender recipient content key ttl
        []).2.1.relay.messages,
      m.id = (st.send_relay_message now sender recipient content key ttl
        []).1.message_id)
    ∧ ((st.send_relay_message now sender recipient content key ttl []).1.status
       = "delivered")
    ∧ (∃ c, Event.push recipient c
        (st.send_relay_message now sender recipient content key ttl []).1.message_id
        ∈ (st.send_relay_message now sender recipient content key ttl []).2.2) := by
  have hon1 : (st.relay.queue_message now sender recipient content key
      ttl).2.is_user_online recipient = true := by
    show (st.relay.queue_message now sender recipient content key
      ttl).2.online_users recipient = true
    rw [queue_online_users]
    exact honline
  have hsp := send_personal_nodead
    { st with relay := (st.relay.queue_message now sender recipient content key ttl).2 }
    recipient
    (st.relay.queue_message now sender recipient content key ttl).1.id
  simp only [ServerState.send_relay_message, hon1, if_true, hsp]
  refine ⟨?_, ?_, ?_⟩
  · refine ⟨(st.relay.queue_message now sender recipient content key ttl).1, ?_, rfl⟩
    show _ ∈ (st.relay.queue_message now sender recipient content key ttl).2.messages
    simp [RelayService.queue_message]
  · simp [hon1]
  · cases hc : st.active_connections recipient with
    | nil => exact absurd hc hconns
    | cons a l =>
      exact ⟨a, List.mem_map.mpr ⟨a, List.mem_cons_self a l, rfl⟩⟩

theorem C1_send_witness :
    wServerBob.relay.is_user_online "bob" = true
    ∧ ((wServerBob.send_relay_message 2 "alice" "bob" "m" "k" none []).1.status
       = "delivered") := by
  have h := C1_send_always_stores wServerBob 2 "alice" "bob" "m" "k" none
    (by decide) (by decide)
  exact ⟨by decide, h.2.1⟩

end SecureMessaging
